import Mathlib

/-
Verification development for the ARIA5-DGRC scanner scripts.

The development shallowly embeds the two Python source files
src/authenticated_scanner.py (class ARIA5Scanner) and
src/detailed_error_investigation.py (class DetailedErrorInvestigator).
Network effects are abstracted into oracles: a fetch oracle gives, per URL,
the outcome that make_request reports to crawl_page (a response with a
status code, no response, or a raised exception); an authentication oracle
gives, per credential, whether authenticate succeeds; an attempt oracle
gives, per retry index, the outcome of one HTTP attempt inside make_request.
The library functions urljoin and urlparse from urllib are kept abstract as
function parameters where they matter (link extraction).
-/

namespace ARIA5

/-! ## String helpers

Python substring containment, as in the expression: pattern in url.lower().
-/

/-- Boolean test that the first character list is an initial segment of the
second, mirroring Python string slicing comparisons. -/
def charsPre : List Char → List Char → Bool
  | [], _ => true
  | _ :: _, [] => false
  | a :: as, b :: bs => a == b && charsPre as bs

/-- Boolean test that the pattern occurs as a contiguous run somewhere in the
list, mirroring the Python operator: pat in s. -/
def charsSub : List Char → List Char → Bool
  | pat, [] => charsPre pat []
  | pat, c :: t => charsPre pat (c :: t) || charsSub pat t

/-- Python substring containment: strContains s pat is the Python expression
pat in s. -/
def strContains (s pat : String) : Bool :=
  charsSub pat.toList s.toList

/-- Python prefix test: strStarts s pre is the Python expression
s.startswith(pre). -/
def strStarts (s pre : String) : Bool :=
  charsPre pre.toList s.toList

/-- Python str.lower, lowercasing character by character. -/
def strLower (s : String) : String :=
  ⟨s.toList.map Char.toLower⟩

/-! ## Constants of ARIA5Scanner.__init__ (src/authenticated_scanner.py) -/

/-- Default target of the scanner (constructor argument base_url). -/
def base_url : String := "https://dynamic-risk-intelligence.pages.dev"

/-- Seconds slept before each request attempt (self.request_delay = 1). -/
def request_delay : Nat := 1

/-- Retry budget of make_request (self.max_retries = 3). -/
def max_retries : Nat := 3

/-- Hard cap on pages crawled in perform_authenticated_scan
(max_pages = 200). -/
def max_pages : Nat := 200

/-- Known ARIA5 routes seeded into the crawl queue (self.known_routes). -/
def known_routes : List String :=
  ["/", "/dashboard", "/login", "/health",
   "/risk", "/compliance", "/operations", "/intelligence", "/admin",
   "/phase1", "/phase2", "/phase3", "/phase4", "/phase5",
   "/dynamic-risk-analysis",
   "/api/health", "/api/risks", "/api/compliance", "/api/services",
   "/api/threat-intelligence/sources", "/api/threat-intelligence/indicators",
   "/api/analytics/trends", "/api/analytics/threat-landscape",
   "/api/validation/queue", "/api/validation/metrics"]

/-- A demo credential entry (self.credentials element). -/
structure Credential where
  username : String
  password : String
  role : String
deriving DecidableEq

/-- Demo credentials from the README (self.credentials). -/
def credentials : List Credential :=
  [⟨"admin", "demo123", "admin"⟩,
   ⟨"avi_security", "demo123", "security_manager"⟩]

/-- File types and problematic endpoints skipped by the crawl loop
(skip_patterns in perform_authenticated_scan). -/
def skip_patterns : List String :=
  [".pdf", ".jpg", ".png", ".gif", ".css", ".js", ".ico",
   "/logout", "/api/logout", "javascript:", "mailto:",
   "#", "data:"]

/-! ## Data model of the scanner state -/

/-- Value of the status_code field of a crawl result: a numeric HTTP code,
the string TIMEOUT (make_request returned None), or the string ERROR
(crawl_page caught an exception). -/
inductive Status
  | code (n : Nat)
  | timeout
  | error
deriving DecidableEq

/-- One crawl result dict as built by crawl_page: the url, the status_code
field, and the links field (a set in the source; kept here as a
duplicate-free list). Fields of the dict that no claim touches
(content_type, content_length, response_time) are not modelled. -/
structure PageResult where
  url : String
  status : Status
  links : List String
deriving DecidableEq

/-- Mutable crawl state of an ARIA5Scanner instance: the discovered and
crawled URL sets, the error_pages buckets (the only keys the program ever
writes are 4xx, 5xx, other and exceptions), the successful_pages list and
the authentication_failures list (kept as the list of failing URLs). -/
structure ScanState where
  discovered_urls : Finset String
  crawled_urls : Finset String
  successful_pages : List PageResult
  err4xx : List PageResult
  err5xx : List PageResult
  errOther : List PageResult
  errExceptions : List PageResult
  authentication_failures : List String
deriving DecidableEq

/-- Fresh scanner state as built by ARIA5Scanner.__init__. -/
def initialState : ScanState := ⟨∅, ∅, [], [], [], [], [], []⟩

/-- Outcome of make_request as observed by crawl_page for one URL: a
response carrying its status code, whether the body is HTML served with
status 200 (the condition under which links are extracted), and the links
the extractor returns on that body; or no response (None); or a raised
exception. -/
inductive Fetch
  | ok (code : Nat) (isHtml : Bool) (links : List String)
  | noResponse
  | exn
deriving DecidableEq

/-! ## crawl_page (src/authenticated_scanner.py lines 270 to 325) -/

/-- Translation of ARIA5Scanner.crawl_page. The fetch oracle stands for the
make_request call; link extraction on the response body is folded into the
oracle. A response is bucketed by status code range, checking 4xx, then
5xx, then 2xx, then other, exactly as the source does; when the code is 200
and the content type is HTML, the result keeps the extracted links and all
of them are added to discovered_urls (line 312). A None response yields a
TIMEOUT result recorded in no bucket; a raised exception yields an ERROR
result appended to the exceptions bucket. -/
def crawlPage (fetch : String → Fetch) (url : String) (st : ScanState) :
    PageResult × ScanState :=
  match fetch url with
  | .noResponse => (⟨url, .timeout, []⟩, st)
  | .exn =>
      let r : PageResult := ⟨url, .error, []⟩
      (r, { st with errExceptions := st.errExceptions ++ [r] })
  | .ok code isHtml pageLinks =>
      let ls := if code = 200 ∧ isHtml then pageLinks else []
      let r : PageResult := ⟨url, .code code, ls⟩
      let st1 :=
        if 400 ≤ code ∧ code < 500 then { st with err4xx := st.err4xx ++ [r] }
        else if 500 ≤ code ∧ code < 600 then { st with err5xx := st.err5xx ++ [r] }
        else if 200 ≤ code ∧ code < 300 then
          { st with successful_pages := st.successful_pages ++ [r] }
        else { st with errOther := st.errOther ++ [r] }
      let st2 :=
        if code = 200 ∧ isHtml then
          { st1 with discovered_urls := st1.discovered_urls ∪ pageLinks.toFinset }
        else st1
      (r, st2)

/-! ## The crawl loop of perform_authenticated_scan (lines 348 to 393) -/

/-- Skip test for file types and problematic endpoints: some skip pattern
occurs in the lowercased URL (line 375). -/
def shouldSkipUrl (url : String) : Bool :=
  skip_patterns.any (fun p => strContains (strLower url) p)

/-- Skip test for external URLs: starts with http but not with the base URL
(line 365). -/
def isExternalUrl (baseUrl url : String) : Bool :=
  strStarts url "http" && !(strStarts url baseUrl)

/-- Translation of the link enqueueing loop (lines 384 to 387): each link of
the crawl result, in turn, is appended to the queue and added to
discovered_urls when it is in neither discovered_urls nor crawled_urls. -/
def enqueueNew : List String → List String → ScanState → List String × ScanState
  | [], queue, st => (queue, st)
  | l :: rest, queue, st =>
      if l ∉ st.discovered_urls ∧ l ∉ st.crawled_urls then
        enqueueNew rest (queue ++ [l])
          { st with discovered_urls := insert l st.discovered_urls }
      else enqueueNew rest queue st

/-- Translation of the while loop of perform_authenticated_scan (lines 357
to 391). The loop pops the queue head; exits when the queue is empty or
crawled_count has reached max_pages; skips (without any request) a URL
already crawled, an external URL, or a URL matching a skip pattern; and
otherwise crawls the page, adds the URL to crawled_urls, increments the
count and enqueues the new links. The third component of the value is the
list of URLs passed to crawl_page, in request order. The definition is by
well-founded recursion on the pair (max_pages - count, queue length), which
is the termination argument of the loop. -/
def scanLoop (fetch : String → Fetch) (baseUrl : String) :
    List String → ScanState → Nat → ScanState × Nat × List String
  | [], st, count => (st, count, [])
  | url :: rest, st, count =>
    if h : count < max_pages then
      if url ∈ st.crawled_urls then
        scanLoop fetch baseUrl rest st count
      else if isExternalUrl baseUrl url then
        scanLoop fetch baseUrl rest st count
      else if shouldSkipUrl url then
        scanLoop fetch baseUrl rest st count
      else
        let pr := crawlPage fetch url st
        let st2 := { pr.2 with crawled_urls := insert url pr.2.crawled_urls }
        let qs := enqueueNew pr.1.links rest st2
        let out := scanLoop fetch baseUrl qs.1 qs.2 (count + 1)
        (out.1, out.2.1, url :: out.2.2)
    else (st, count, [])
termination_by queue _st count => (max_pages - count, queue.length)

/-- Translation of the credential loop of perform_authenticated_scan (lines
336 to 340): try each credential in order, stop at the first success. The
authentication oracle stands for the authenticate method, whose side
effects do not touch the crawl state. -/
def tryAuthenticate (authOk : Credential → Bool) : List Credential → Option Credential
  | [] => none
  | c :: rest => if authOk c then some c else tryAuthenticate authOk rest

/-- Translation of ARIA5Scanner.perform_authenticated_scan (lines 327 to
394): authenticate first, returning False on total failure before any
crawling; otherwise seed the queue with known_routes, add them to
discovered_urls and run the crawl loop from count 0. The value extends the
boolean return of the source with the final state, the final
crawled_count, and the list of URLs actually requested. -/
def performAuthenticatedScan (authOk : Credential → Bool) (fetch : String → Fetch)
    (st : ScanState) : Bool × ScanState × Nat × List String :=
  match tryAuthenticate authOk credentials with
  | none => (false, st, 0, [])
  | some _ =>
      let st1 := { st with discovered_urls := st.discovered_urls ∪ known_routes.toFinset }
      let out := scanLoop fetch base_url known_routes st1 0
      (true, out.1, out.2.1, out.2.2)

/-! ## generate_report (src/authenticated_scanner.py lines 396 to 473) -/

/-- Content of the structured JSON report written by generate_report: the
scan_info and error_summary counts, the detailed_errors buckets in full,
the successful_pages entry (the source writes only the first ten, line 418)
and all discovered URLs. -/
structure ScanReport where
  pages_crawled : Nat
  total_discovered : Nat
  successful_count : Nat
  error_count : Nat
  auth_failure_count : Nat
  errors_4xx : Nat
  errors_5xx : Nat
  errors_other : Nat
  exception_count : Nat
  detailed_4xx : List PageResult
  detailed_5xx : List PageResult
  detailed_other : List PageResult
  detailed_exceptions : List PageResult
  reported_successful_pages : List PageResult
  all_discovered_urls : Finset String
deriving DecidableEq

/-- Translation of the report dict built by ARIA5Scanner.generate_report
(lines 400 to 420) and dumped to security_scan_report.json. -/
def generate_report (st : ScanState) : ScanReport :=
  { pages_crawled := st.crawled_urls.card
    total_discovered := st.discovered_urls.card
    successful_count := st.successful_pages.length
    error_count := st.err4xx.length + st.err5xx.length
      + st.errOther.length + st.errExceptions.length
    auth_failure_count := st.authentication_failures.length
    errors_4xx := st.err4xx.length
    errors_5xx := st.err5xx.length
    errors_other := st.errOther.length
    exception_count := st.errExceptions.length
    detailed_4xx := st.err4xx
    detailed_5xx := st.err5xx
    detailed_other := st.errOther
    detailed_exceptions := st.errExceptions
    reported_successful_pages := st.successful_pages.take 10
    all_discovered_urls := st.discovered_urls }

/-- One data row of error_analysis.csv (lines 431 to 439): the URL of the
entry, its status code and the name of its bucket. The content type and
response time columns carry no information the claims touch. -/
structure CsvRow where
  url : String
  status : Status
  errorType : String
deriving DecidableEq

/-- Translation of the CSV writing loop of generate_report (lines 431 to
439): one row per entry of each error bucket. -/
def csvRows (st : ScanState) : List CsvRow :=
  st.err4xx.map (fun r => ⟨r.url, r.status, "4xx"⟩)
    ++ st.err5xx.map (fun r => ⟨r.url, r.status, "5xx"⟩)
    ++ st.errOther.map (fun r => ⟨r.url, r.status, "other"⟩)
    ++ st.errExceptions.map (fun r => ⟨r.url, r.status, "exceptions"⟩)

/-! ## make_request retry loop (src/authenticated_scanner.py lines 185 to
231) -/

/-- Outcome of the HTTP call of one retry attempt inside make_request: a
response arrives (the attempt returns), a Timeout exception, or another
RequestException. -/
inductive AttemptResult
  | ok
  | timeoutExn
  | requestExn
deriving DecidableEq

/-- Observable event of make_request: a sleep of a number of seconds
(time.sleep on line 192) or the HTTP attempt with its retry index. -/
inductive ReqEvent
  | sleep (seconds : Nat)
  | attempt (i : Nat)
deriving DecidableEq

/-- How one invocation of make_request ends: with a response returned, with
the last caught exception re-raised, or with the fall-through return None
after the loop. -/
inductive ReqOutcome
  | success
  | raised
  | noResponse
deriving DecidableEq

/-- Translation of the retry loop of make_request from attempt index i on:
each iteration first sleeps request_delay seconds, then issues the attempt;
a response returns it, and an exception re-raises on the last attempt
(attempt index max_retries - 1) and otherwise continues. The handling of a
302 response happens after the attempt event and does not alter the event
sequence of this invocation. -/
def makeRequestFrom (att : Nat → AttemptResult) (i : Nat) : List ReqEvent × ReqOutcome :=
  if _h : i < max_retries then
    match att i with
    | .ok => ([.sleep request_delay, .attempt i], .success)
    | .timeoutExn =>
        if i = max_retries - 1 then ([.sleep request_delay, .attempt i], .raised)
        else
          let out := makeRequestFrom att (i + 1)
          (.sleep request_delay :: .attempt i :: out.1, out.2)
    | .requestExn =>
        if i = max_retries - 1 then ([.sleep request_delay, .attempt i], .raised)
        else
          let out := makeRequestFrom att (i + 1)
          (.sleep request_delay :: .attempt i :: out.1, out.2)
  else ([], .noResponse)
termination_by max_retries - i

/-- Event trace and outcome of one invocation of make_request, which starts
its for loop at attempt index 0. -/
def makeRequestTrace (att : Nat → AttemptResult) : List ReqEvent × ReqOutcome :=
  makeRequestFrom att 0

/-- Recognizer of HTTP attempt events in a make_request trace. -/
def isAttemptEvent : ReqEvent → Bool
  | .attempt _ => true
  | _ => false

/-- Checker that a trace is a sequence of blocks, each a sleep of
request_delay seconds immediately followed by one attempt. -/
def wellDelayed : List ReqEvent → Bool
  | [] => true
  | .sleep d :: .attempt _ :: rest => (d == request_delay) && wellDelayed rest
  | _ => false

/-! ## investigate_404_patterns
(src/detailed_error_investigation.py lines 122 to 151) -/

/-- Keywords that route a 404 path to the ui_pages bucket (line 135). -/
def ui_keywords : List String := ["/dashboard", "/phase", "/dynamic"]

/-- The three buckets built by investigate_404_patterns. -/
structure Patterns404 where
  api_endpoints : List String
  ui_pages : List String
  missing_features : List String
deriving DecidableEq

/-- Translation of DetailedErrorInvestigator.investigate_404_patterns: each
path goes to api_endpoints when it starts with /api/, else to ui_pages when
it contains one of the ui keywords, else to missing_features, keeping the
input order inside each bucket. -/
def investigate_404_patterns : List String → Patterns404
  | [] => ⟨[], [], []⟩
  | p :: rest =>
      let r := investigate_404_patterns rest
      if strStarts p "/api/" then { r with api_endpoints := p :: r.api_endpoints }
      else if ui_keywords.any (fun k => strContains p k) then
        { r with ui_pages := p :: r.ui_pages }
      else { r with missing_features := p :: r.missing_features }

/-- Bucket test of investigate_404_patterns for api_endpoints. -/
def isApiPath (p : String) : Bool := strStarts p "/api/"

/-- Bucket test of investigate_404_patterns for ui_pages. -/
def isUiPath (p : String) : Bool :=
  !(strStarts p "/api/") && ui_keywords.any (fun k => strContains p k)

/-- Bucket test of investigate_404_patterns for missing_features. -/
def isMissingPath (p : String) : Bool :=
  !(strStarts p "/api/") && !(ui_keywords.any (fun k => strContains p k))

/-! ## extract_links_from_page (src/authenticated_scanner.py lines 233 to
268)

The HTML document is modelled as the list of its elements, each a tag name
with its attributes; urljoin and the netloc projection of urlparse are
urllib functions kept abstract as parameters uj and nl. -/

/-- One parsed HTML element: tag name and attribute list. -/
structure HtmlElement where
  tag : String
  attrs : List (String × String)
deriving DecidableEq

/-- Attribute lookup on an element, as BeautifulSoup element.get(name). -/
def getAttr (e : HtmlElement) (a : String) : Option String :=
  (e.attrs.find? (fun p => p.1 == a)).map (fun p => p.2)

/-- Insertion into the links set: Python set.add keeps the set free of
duplicates. -/
def setAdd (acc : List String) (s : String) : List String :=
  if s ∈ acc then acc else acc ++ [s]

/-- Domain filter applied to every candidate link (lines 245, 255 and 262):
the netloc of the joined URL equals the netloc of the base URL, or the raw
attribute value starts with a slash. -/
def linkFilter (uj : String → String → String) (nl : String → String)
    (baseUrl pageUrl raw : String) : Bool :=
  nl (uj pageUrl raw) == nl baseUrl || strStarts raw "/"

/-- The HTMX attributes scanned for endpoints (htmx_attrs, line 249). -/
def htmx_attrs : List String :=
  ["hx-get", "hx-post", "hx-put", "hx-delete", "hx-patch"]

/-- Body of the anchor loop (lines 241 to 246) for one element: an element
with tag a and an href attribute yields urljoin(url, href) when the domain
filter passes, and nothing otherwise. -/
def anchorCand (uj : String → String → String) (nl : String → String)
    (baseUrl pageUrl : String) (e : HtmlElement) : Option String :=
  if e.tag = "a" then
    match getAttr e "href" with
    | some href =>
        if linkFilter uj nl baseUrl pageUrl href then some (uj pageUrl href) else none
    | none => none
  else none

/-- Body of the HTMX loop (lines 251 to 256) for one element and one
attribute: an element carrying the attribute with a nonempty value (the
source guards with the truthiness test: if endpoint) yields
urljoin(url, endpoint) when the domain filter passes. -/
def htmxCand (uj : String → String → String) (nl : String → String)
    (baseUrl pageUrl attr : String) (e : HtmlElement) : Option String :=
  match getAttr e attr with
  | some ep =>
      if ep ≠ "" ∧ linkFilter uj nl baseUrl pageUrl ep = true then some (uj pageUrl ep)
      else none
  | none => none

/-- Body of the form loop (lines 259 to 263) for one element: an element
with tag form and an action attribute yields urljoin(url, action) when the
domain filter passes. -/
def formCand (uj : String → String → String) (nl : String → String)
    (baseUrl pageUrl : String) (e : HtmlElement) : Option String :=
  if e.tag = "form" then
    match getAttr e "action" with
    | some action =>
        if linkFilter uj nl baseUrl pageUrl action then some (uj pageUrl action) else none
    | none => none
  else none

/-- One extraction loop over the document: each element whose loop body
yields a candidate has it added to the links set. All three loops of
extract_links_from_page have this shape. -/
def collectLinks (cand : HtmlElement → Option String) :
    List HtmlElement → List String → List String
  | [], acc => acc
  | e :: rest, acc =>
      collectLinks cand rest
        (match cand e with
        | some u => setAdd acc u
        | none => acc)

/-- The HTMX pass (lines 249 to 256): one extraction loop per attribute of
htmx_attrs, in order. -/
def htmxPass (uj : String → String → String) (nl : String → String)
    (baseUrl pageUrl : String) (doc : List HtmlElement) :
    List String → List String → List String
  | [], acc => acc
  | a :: rest, acc =>
      htmxPass uj nl baseUrl pageUrl doc rest
        (collectLinks (htmxCand uj nl baseUrl pageUrl a) doc acc)

/-- Translation of ARIA5Scanner.extract_links_from_page: the anchor loop,
then the HTMX loops, then the form loop, all accumulating into one
duplicate-free links collection starting from the empty set. -/
def extract_links_from_page (uj : String → String → String) (nl : String → String)
    (baseUrl pageUrl : String) (doc : List HtmlElement) : List String :=
  collectLinks (formCand uj nl baseUrl pageUrl) doc
    (htmxPass uj nl baseUrl pageUrl doc htmx_attrs
      (collectLinks (anchorCand uj nl baseUrl pageUrl) doc []))

/-! ## Helper lemmas about crawl_page -/

/-- crawl_page never touches crawled_urls: only the loop adds to it. -/
theorem crawlPage_crawled_urls (fetch : String → Fetch) (url : String) (st : ScanState) :
    (crawlPage fetch url st).2.crawled_urls = st.crawled_urls := by
  cases hf : fetch url <;> simp only [crawlPage, hf]
  split_ifs <;> rfl

/-- crawl_page only ever adds to discovered_urls. -/
theorem crawlPage_discovered_mono (fetch : String → Fetch) (url : String) (st : ScanState) :
    st.discovered_urls ⊆ (crawlPage fetch url st).2.discovered_urls := by
  cases hf : fetch url <;> simp only [crawlPage, hf] <;> try exact fun _ h => h
  split_ifs <;>
    first
      | exact Finset.Subset.refl _
      | exact Finset.subset_union_left

/-! ## Helper lemmas about the enqueueing loop -/

/-- Enqueueing links never touches crawled_urls. -/
theorem enqueueNew_crawled_urls (links queue : List String) (st : ScanState) :
    (enqueueNew links queue st).2.crawled_urls = st.crawled_urls := by
  induction links generalizing queue st with
  | nil => rfl
  | cons l rest ih =>
      simp only [enqueueNew]
      split_ifs with h
      · exact ih _ _
      · exact ih _ _

/-- Enqueueing links only ever adds to discovered_urls. -/
theorem enqueueNew_discovered_mono (links queue : List String) (st : ScanState) :
    st.discovered_urls ⊆ (enqueueNew links queue st).2.discovered_urls := by
  induction links generalizing queue st with
  | nil => exact Finset.Subset.refl _
  | cons l rest ih =>
      simp only [enqueueNew]
      split_ifs with h
      · exact fun u hu => ih _ _ (Finset.mem_insert_of_mem hu)
      · exact ih _ _

/-- Membership in the queue produced by the enqueueing loop: the old queue
entries, plus exactly those links that are in neither discovered_urls nor
crawled_urls at the start of the loop. -/
theorem enqueueNew_mem_queue (links queue : List String) (st : ScanState) (u : String) :
    u ∈ (enqueueNew links queue st).1 ↔
      u ∈ queue ∨ (u ∈ links ∧ u ∉ st.discovered_urls ∧ u ∉ st.crawled_urls) := by
  induction links generalizing queue st with
  | nil => simp [enqueueNew]
  | cons l rest ih =>
      simp only [enqueueNew]
      split_ifs with h
      · rw [ih]
        constructor
        · rintro (hq | ⟨hr, hd, hc⟩)
          · rcases List.mem_append.mp hq with hq | hl
            · exact Or.inl hq
            · rcases List.mem_singleton.mp hl with rfl
              exact Or.inr ⟨List.mem_cons_self _ _, h.1, h.2⟩
          · refine Or.inr ⟨List.mem_cons_of_mem _ hr, fun hmem => hd ?_, hc⟩
            exact Finset.mem_insert_of_mem hmem
        · rintro (hq | ⟨hm, hd, hc⟩)
          · exact Or.inl (List.mem_append.mpr (Or.inl hq))
          · rcases List.mem_cons.mp hm with rfl | hr
            · exact Or.inl (List.mem_append.mpr (Or.inr (List.mem_singleton.mpr rfl)))
            · by_cases hul : u = l
              · subst hul
                exact Or.inl (List.mem_append.mpr (Or.inr (List.mem_singleton.mpr rfl)))
              · refine Or.inr ⟨hr, fun hmem => ?_, hc⟩
                rcases Finset.mem_insert.mp hmem with h1 | h1
                · exact hul h1
                · exact hd h1
      · rw [ih]
        constructor
        · rintro (hq | ⟨hr, hd, hc⟩)
          · exact Or.inl hq
          · exact Or.inr ⟨List.mem_cons_of_mem _ hr, hd, hc⟩
        · rintro (hq | ⟨hm, hd, hc⟩)
          · exact Or.inl hq
          · rcases List.mem_cons.mp hm with rfl | hr
            · rcases not_and_or.mp h with h1 | h1
              · exact absurd (not_not.mp h1) hd
              · exact absurd (not_not.mp h1) hc
            · exact Or.inr ⟨hr, hd, hc⟩

/-- The enqueueing loop only appends at the back of the queue: the old
queue stays an initial segment, as FIFO order requires. -/
theorem enqueueNew_queue_extends (links queue : List String) (st : ScanState) :
    ∃ t, (enqueueNew links queue st).1 = queue ++ t := by
  induction links generalizing queue st with
  | nil => exact ⟨[], (List.append_nil queue).symm⟩
  | cons l rest ih =>
      simp only [enqueueNew]
      split_ifs with h
      · rcases ih (queue ++ [l]) { st with discovered_urls := insert l st.discovered_urls }
          with ⟨t, ht⟩
        exact ⟨l :: t, by rw [ht, List.append_assoc]; rfl⟩
      · exact ih _ _

/-- Every entry of the queue produced by the enqueueing loop is discovered
in the state the loop produces: old entries were discovered already, and a
link is added to discovered_urls at the moment it is enqueued. -/
theorem enqueueNew_queue_discovered (links queue : List String) (st : ScanState)
    (hq : ∀ u ∈ queue, u ∈ st.discovered_urls) :
    ∀ u ∈ (enqueueNew links queue st).1, u ∈ (enqueueNew links queue st).2.discovered_urls := by
  induction links generalizing queue st with
  | nil => exact hq
  | cons l rest ih =>
      simp only [enqueueNew]
      split_ifs with h
      · refine ih _ _ ?_
        intro u hu
        rcases List.mem_append.mp hu with hu | hu
        · exact Finset.mem_insert_of_mem (hq u hu)
        · rcases List.mem_singleton.mp hu with rfl
          exact Finset.mem_insert_self _ _
      · exact ih _ _ hq

/-! ## Helper lemmas about the crawl loop -/

/-- The loop exits at once on an empty queue. -/
theorem scanLoop_nil (fetch : String → Fetch) (b : String) (st : ScanState) (count : Nat) :
    scanLoop fetch b [] st count = (st, count, []) := by
  simp [scanLoop]

/-- The loop exits at once when the page cap has been reached, whatever the
queue still holds. -/
theorem scanLoop_stop (fetch : String → Fetch) (b url : String) (rest : List String)
    (st : ScanState) (count : Nat) (h : ¬ count < max_pages) :
    scanLoop fetch b (url :: rest) st count = (st, count, []) := by
  simp only [scanLoop]
  rw [dif_neg h]

/-- A popped URL that is already crawled, or external, or matches a skip
pattern, is dropped: the loop goes on with the rest of the queue and
nothing else changes. -/
theorem scanLoop_cons_skip (fetch : String → Fetch) (b url : String) (rest : List String)
    (st : ScanState) (count : Nat)
    (hskip : url ∈ st.crawled_urls ∨ isExternalUrl b url = true ∨ shouldSkipUrl url = true) :
    scanLoop fetch b (url :: rest) st count = scanLoop fetch b rest st count := by
  by_cases h : count < max_pages
  · simp only [scanLoop]
    rw [dif_pos h]
    by_cases h1 : url ∈ st.crawled_urls
    · rw [if_pos h1]
    · rw [if_neg h1]
      by_cases h2 : isExternalUrl b url = true
      · rw [if_pos h2]
      · rw [if_neg h2]
        have h3 : shouldSkipUrl url = true := by
          rcases hskip with h' | h' | h'
          · exact absurd h' h1
          · exact absurd h' h2
          · exact h'
        rw [if_pos h3]
  · rw [scanLoop_stop fetch b url rest st count h]
    cases rest with
    | nil => rw [scanLoop_nil]
    | cons r t => rw [scanLoop_stop fetch b r t st count h]

/-- A popped URL that passes all three skip checks under the cap is
crawled: the page is fetched, the URL joins crawled_urls, the count steps,
the new links are enqueued at the back, and the URL heads the request
order. -/
theorem scanLoop_cons_crawl (fetch : String → Fetch) (b url : String) (rest : List String)
    (st : ScanState) (count : Nat) (h : count < max_pages)
    (h1 : url ∉ st.crawled_urls) (h2 : ¬ isExternalUrl b url = true)
    (h3 : ¬ shouldSkipUrl url = true) :
    scanLoop fetch b (url :: rest) st count =
      (let pr := crawlPage fetch url st
       let st2 := { pr.2 with crawled_urls := insert url pr.2.crawled_urls }
       let qs := enqueueNew pr.1.links rest st2
       let out := scanLoop fetch b qs.1 qs.2 (count + 1)
       (out.1, out.2.1, url :: out.2.2)) := by
  simp only [scanLoop]
  rw [dif_pos h, if_neg h1, if_neg h2, if_neg h3]

/-- The final count is the initial count plus the number of pages the loop
requested. -/
theorem scanLoop_count_eq (fetch : String → Fetch) (b : String) (queue : List String)
    (st : ScanState) (count : Nat) :
    (scanLoop fetch b queue st count).2.1 =
      count + (scanLoop fetch b queue st count).2.2.length := by
  induction queue, st, count using scanLoop.induct fetch b with
  | case1 st count => simp [scanLoop_nil]
  | case2 url rest st count h h1 ih =>
      rw [scanLoop_cons_skip fetch b url rest st count (Or.inl h1)]
      exact ih
  | case3 url rest st count h h1 h2 ih =>
      rw [scanLoop_cons_skip fetch b url rest st count (Or.inr (Or.inl h2))]
      exact ih
  | case4 url rest st count h h1 h2 h3 ih =>
      rw [scanLoop_cons_skip fetch b url rest st count (Or.inr (Or.inr h3))]
      exact ih
  | case5 url rest st count h h1 h2 h3 pr st2 qs ih =>
      rw [scanLoop_cons_crawl fetch b url rest st count h h1 h2 h3]
      have hqs : qs = enqueueNew (crawlPage fetch url st).1.links rest
          { (crawlPage fetch url st).2 with
            crawled_urls := insert url (crawlPage fetch url st).2.crawled_urls } := rfl
      rw [hqs] at ih
      simp only [] at ih ⊢
      simp only [List.length_cons]
      omega
  | case6 url rest st count h =>
      rw [scanLoop_stop fetch b url rest st count h]
      simp

/-- The final count never passes the cap when the initial count has not. -/
theorem scanLoop_count_le (fetch : String → Fetch) (b : String) (queue : List String)
    (st : ScanState) (count : Nat) :
    count ≤ max_pages → (scanLoop fetch b queue st count).2.1 ≤ max_pages := by
  induction queue, st, count using scanLoop.induct fetch b with
  | case1 st count => intro hc; simpa [scanLoop_nil] using hc
  | case2 url rest st count h h1 ih =>
      intro hc
      rw [scanLoop_cons_skip fetch b url rest st count (Or.inl h1)]
      exact ih hc
  | case3 url rest st count h h1 h2 ih =>
      intro hc
      rw [scanLoop_cons_skip fetch b url rest st count (Or.inr (Or.inl h2))]
      exact ih hc
  | case4 url rest st count h h1 h2 h3 ih =>
      intro hc
      rw [scanLoop_cons_skip fetch b url rest st count (Or.inr (Or.inr h3))]
      exact ih hc
  | case5 url rest st count h h1 h2 h3 pr st2 qs ih =>
      intro _
      rw [scanLoop_cons_crawl fetch b url rest st count h h1 h2 h3]
      have hqs : qs = enqueueNew (crawlPage fetch url st).1.links rest
          { (crawlPage fetch url st).2 with
            crawled_urls := insert url (crawlPage fetch url st).2.crawled_urls } := rfl
      rw [hqs] at ih
      simp only [] at ih ⊢
      exact ih h
  | case6 url rest st count h =>
      intro hc
      rw [scanLoop_stop fetch b url rest st count h]
      exact hc

/-- The request order holds no URL twice and no URL that was already
crawled when the loop started. -/
theorem scanLoop_order_spec (fetch : String → Fetch) (b : String) (queue : List String)
    (st : ScanState) (count : Nat) :
    (scanLoop fetch b queue st count).2.2.Nodup ∧
      ∀ u ∈ (scanLoop fetch b queue st count).2.2, u ∉ st.crawled_urls := by
  induction queue, st, count using scanLoop.induct fetch b with
  | case1 st count => simp [scanLoop_nil]
  | case2 url rest st count h h1 ih =>
      rw [scanLoop_cons_skip fetch b url rest st count (Or.inl h1)]
      exact ih
  | case3 url rest st count h h1 h2 ih =>
      rw [scanLoop_cons_skip fetch b url rest st count (Or.inr (Or.inl h2))]
      exact ih
  | case4 url rest st count h h1 h2 h3 ih =>
      rw [scanLoop_cons_skip fetch b url rest st count (Or.inr (Or.inr h3))]
      exact ih
  | case5 url rest st count h h1 h2 h3 pr st2 qs ih =>
      rw [scanLoop_cons_crawl fetch b url rest st count h h1 h2 h3]
      have hqs : qs = enqueueNew (crawlPage fetch url st).1.links rest
          { (crawlPage fetch url st).2 with
            crawled_urls := insert url (crawlPage fetch url st).2.crawled_urls } := rfl
      rw [hqs] at ih
      simp only [] at ih ⊢
      have hcrawl : (enqueueNew (crawlPage fetch url st).1.links rest
          { (crawlPage fetch url st).2 with
            crawled_urls := insert url (crawlPage fetch url st).2.crawled_urls }).2.crawled_urls
          = insert url st.crawled_urls := by
        rw [enqueueNew_crawled_urls]
        simp [crawlPage_crawled_urls]
      constructor
      · refine List.nodup_cons.mpr ⟨fun hmem => ?_, ih.1⟩
        have := ih.2 url hmem
        rw [hcrawl] at this
        exact this (Finset.mem_insert_self _ _)
      · intro u hu
        rcases List.mem_cons.mp hu with rfl | hu
        · exact h1
        · have := ih.2 u hu
          rw [hcrawl] at this
          exact fun hmem => this (Finset.mem_insert_of_mem hmem)
  | case6 url rest st count h =>
      rw [scanLoop_stop fetch b url rest st count h]
      simp

/-- Every URL the loop requests passed both URL filters: it is not
external and matches no skip pattern. -/
theorem scanLoop_order_filtered (fetch : String → Fetch) (b : String) (queue : List String)
    (st : ScanState) (count : Nat) :
    ∀ u ∈ (scanLoop fetch b queue st count).2.2,
      isExternalUrl b u = false ∧ shouldSkipUrl u = false := by
  induction queue, st, count using scanLoop.induct fetch b with
  | case1 st count => simp [scanLoop_nil]
  | case2 url rest st count h h1 ih =>
      rw [scanLoop_cons_skip fetch b url rest st count (Or.inl h1)]
      exact ih
  | case3 url rest st count h h1 h2 ih =>
      rw [scanLoop_cons_skip fetch b url rest st count (Or.inr (Or.inl h2))]
      exact ih
  | case4 url rest st count h h1 h2 h3 ih =>
      rw [scanLoop_cons_skip fetch b url rest st count (Or.inr (Or.inr h3))]
      exact ih
  | case5 url rest st count h h1 h2 h3 pr st2 qs ih =>
      rw [scanLoop_cons_crawl fetch b url rest st count h h1 h2 h3]
      have hqs : qs = enqueueNew (crawlPage fetch url st).1.links rest
          { (crawlPage fetch url st).2 with
            crawled_urls := insert url (crawlPage fetch url st).2.crawled_urls } := rfl
      rw [hqs] at ih
      simp only [] at ih ⊢
      intro u hu
      rcases List.mem_cons.mp hu with rfl | hu
      · exact ⟨Bool.eq_false_iff.mpr (fun hx => h2 hx), Bool.eq_false_iff.mpr (fun hx => h3 hx)⟩
      · exact ih u hu
  | case6 url rest st count h =>
      rw [scanLoop_stop fetch b url rest st count h]
      simp

/-- Loop invariant behind claim C8: when every queued URL is discovered and
the crawled set sits inside the discovered set, the same holds of the final
state. -/
theorem scanLoop_subset_inv (fetch : String → Fetch) (b : String) (queue : List String)
    (st : ScanState) (count : Nat) :
    (∀ u ∈ queue, u ∈ st.discovered_urls) → st.crawled_urls ⊆ st.discovered_urls →
      (scanLoop fetch b queue st count).1.crawled_urls ⊆
        (scanLoop fetch b queue st count).1.discovered_urls := by
  induction queue, st, count using scanLoop.induct fetch b with
  | case1 st count => intro _ hsub; simpa [scanLoop_nil] using hsub
  | case2 url rest st count h h1 ih =>
      intro hq hsub
      rw [scanLoop_cons_skip fetch b url rest st count (Or.inl h1)]
      exact ih (fun u hu => hq u (List.mem_cons_of_mem _ hu)) hsub
  | case3 url rest st count h h1 h2 ih =>
      intro hq hsub
      rw [scanLoop_cons_skip fetch b url rest st count (Or.inr (Or.inl h2))]
      exact ih (fun u hu => hq u (List.mem_cons_of_mem _ hu)) hsub
  | case4 url rest st count h h1 h2 h3 ih =>
      intro hq hsub
      rw [scanLoop_cons_skip fetch b url rest st count (Or.inr (Or.inr h3))]
      exact ih (fun u hu => hq u (List.mem_cons_of_mem _ hu)) hsub
  | case5 url rest st count h h1 h2 h3 pr st2 qs =>
      rename_i ih
      intro hq hsub
      rw [scanLoop_cons_crawl fetch b url rest st count h h1 h2 h3]
      have hqs : qs = enqueueNew (crawlPage fetch url st).1.links rest
          { (crawlPage fetch url st).2 with
            crawled_urls := insert url (crawlPage fetch url st).2.crawled_urls } := rfl
      rw [hqs] at ih
      simp only [] at ih ⊢
      refine ih ?_ ?_
      · exact enqueueNew_queue_discovered _ _ _ (fun u hu =>
          crawlPage_discovered_mono fetch url st (hq u (List.mem_cons_of_mem _ hu)))
      · rw [enqueueNew_crawled_urls]
        intro u hu
        simp only [Finset.mem_insert] at hu
        rcases hu with rfl | hu
        · exact enqueueNew_discovered_mono _ _ _
            (crawlPage_discovered_mono fetch u st (hq u (List.mem_cons_self _ _)))
        · rw [crawlPage_crawled_urls] at hu
          exact enqueueNew_discovered_mono _ _ _
            (crawlPage_discovered_mono fetch url st (hsub hu))
  | case6 url rest st count h =>
      intro _ hsub
      rw [scanLoop_stop fetch b url rest st count h]
      exact hsub

/-! ## Helper lemmas about the credential loop -/

/-- The credential loop reports failure exactly when every credential
fails. -/
theorem tryAuthenticate_eq_none (authOk : Credential → Bool) (cs : List Credential) :
    tryAuthenticate authOk cs = none ↔ ∀ c ∈ cs, authOk c = false := by
  induction cs with
  | nil => simp [tryAuthenticate]
  | cons c rest ih =>
      rw [tryAuthenticate]
      split_ifs with h
      · constructor
        · intro hx
          cases hx
        · intro hall
          have hcf := hall c (List.mem_cons_self _ _)
          rw [h] at hcf
          cases hcf
      · rw [ih]
        constructor
        · intro hall x hx
          rcases List.mem_cons.mp hx with rfl | hx
          · exact Bool.eq_false_iff.mpr h
          · exact hall x hx
        · intro hall x hx
          exact hall x (List.mem_cons_of_mem _ hx)

/-- The credential the loop picks is the first success: it satisfies the
oracle and every credential before it fails. -/
theorem tryAuthenticate_first (authOk : Credential → Bool) (cs : List Credential)
    (c : Credential) (hsome : tryAuthenticate authOk cs = some c) :
    authOk c = true ∧ ∃ i, ∃ hi : i < cs.length, cs.get ⟨i, hi⟩ = c ∧
      ∀ d ∈ cs.take i, authOk d = false := by
  induction cs with
  | nil => exact absurd hsome (by simp [tryAuthenticate])
  | cons d rest ih =>
      rw [tryAuthenticate] at hsome
      split_ifs at hsome with h
      · cases hsome
        exact ⟨h, 0, Nat.succ_pos _, rfl, by simp⟩
      · obtain ⟨hc, i, hi, hget, hpre⟩ := ih hsome
        refine ⟨hc, i + 1, Nat.succ_lt_succ hi, hget, ?_⟩
        rw [List.take_succ_cons]
        intro x hx
        rcases List.mem_cons.mp hx with rfl | hx
        · exact Bool.eq_false_iff.mpr h
        · exact hpre x hx

/-! ## Helper lemmas about the make_request retry loop -/

/-- Unfold lemma for the retry loop: a response on attempt i ends the loop
with a success outcome after one sleep and one attempt. -/
theorem makeRequestFrom_ok (att : Nat → AttemptResult) (i : Nat)
    (h : i < max_retries) (ha : att i = AttemptResult.ok) :
    makeRequestFrom att i = ([.sleep request_delay, .attempt i], .success) := by
  rw [makeRequestFrom, dif_pos h, ha]

/-- Unfold lemma for the retry loop: an exception on the last attempt
re-raises after one sleep and one attempt. -/
theorem makeRequestFrom_exn_last (att : Nat → AttemptResult) (i : Nat)
    (h : i < max_retries) (ha : att i = AttemptResult.timeoutExn ∨ att i = AttemptResult.requestExn)
    (hl : i = max_retries - 1) :
    makeRequestFrom att i = ([.sleep request_delay, .attempt i], .raised) := by
  rcases ha with ha | ha <;> rw [makeRequestFrom, dif_pos h, ha, if_pos hl]

/-- Unfold lemma for the retry loop: an exception before the last attempt
adds one sleep and one attempt and continues with the next attempt. -/
theorem makeRequestFrom_exn_cont (att : Nat → AttemptResult) (i : Nat)
    (h : i < max_retries) (ha : att i = AttemptResult.timeoutExn ∨ att i = AttemptResult.requestExn)
    (hl : ¬ i = max_retries - 1) :
    makeRequestFrom att i =
      (ReqEvent.sleep request_delay :: ReqEvent.attempt i :: (makeRequestFrom att (i + 1)).1,
        (makeRequestFrom att (i + 1)).2) := by
  rcases ha with ha | ha <;> rw [makeRequestFrom, dif_pos h, ha, if_neg hl]

/-- Unfold lemma for the retry loop: past the retry budget the loop body
is not entered and None is returned. -/
theorem makeRequestFrom_stop (att : Nat → AttemptResult) (i : Nat)
    (h : ¬ i < max_retries) : makeRequestFrom att i = ([], .noResponse) := by
  rw [makeRequestFrom, dif_neg h]

/-- Every invocation of the retry loop produces a trace of blocks, each one
sleep of request_delay seconds immediately followed by one attempt. -/
theorem makeRequestFrom_wellDelayed (att : Nat → AttemptResult) (i : Nat) :
    wellDelayed (makeRequestFrom att i).1 = true := by
  induction i using makeRequestFrom.induct att with
  | case1 i h ha =>
      rw [makeRequestFrom_ok att i h ha]
      simp [wellDelayed]
  | case2 h ha =>
      rw [makeRequestFrom_exn_last att _ (by omega) (Or.inl ha) rfl]
      simp [wellDelayed]
  | case3 i h ha hl ih =>
      rw [makeRequestFrom_exn_cont att i h (Or.inl ha) hl]
      simp [wellDelayed, ih]
  | case4 h ha =>
      rw [makeRequestFrom_exn_last att _ (by omega) (Or.inr ha) rfl]
      simp [wellDelayed]
  | case5 i h ha hl ih =>
      rw [makeRequestFrom_exn_cont att i h (Or.inr ha) hl]
      simp [wellDelayed, ih]
  | case6 i h =>
      rw [makeRequestFrom_stop att i h]
      simp [wellDelayed]

/-- In a well delayed trace, every attempt event sits right after a sleep
of request_delay seconds. -/
theorem wellDelayed_attempt_preceded (l : List ReqEvent) (hwd : wellDelayed l = true)
    (k i : Nat) (hk : l.get? k = some (ReqEvent.attempt i)) :
    ∃ k2, k = k2 + 1 ∧ l.get? k2 = some (ReqEvent.sleep request_delay) := by
  induction l using wellDelayed.induct generalizing k i with
  | case1 => simp at hk
  | case2 d j rest ih =>
      rw [wellDelayed] at hwd
      have hand := (Bool.and_eq_true _ _).mp hwd
      have hd : d = request_delay := by simpa using hand.1
      match k, hk with
      | 1, hk => exact ⟨0, rfl, by simp [hd]⟩
      | (k2 + 2), hk =>
          obtain ⟨k3, hk3, hget⟩ := ih hand.2 (k := k2) (i := i) (by simpa using hk)
          exact ⟨k3 + 2, by omega, by simpa using hget⟩
  | case3 l hnil hshape =>
      exfalso
      match l, hnil, hshape with
      | [], hnil, _ => exact hnil rfl
      | [ReqEvent.sleep d], _, _ =>
          rw [show wellDelayed [ReqEvent.sleep d] = false from rfl] at hwd
          exact Bool.false_ne_true hwd
      | ReqEvent.sleep d :: ReqEvent.sleep d2 :: rest, _, _ =>
          rw [show wellDelayed (ReqEvent.sleep d :: ReqEvent.sleep d2 :: rest) = false from rfl] at hwd
          exact Bool.false_ne_true hwd
      | ReqEvent.sleep d :: ReqEvent.attempt j :: rest, _, hshape =>
          exact hshape d j rest rfl
      | ReqEvent.attempt j :: rest, _, _ =>
          rw [show wellDelayed (ReqEvent.attempt j :: rest) = false from rfl] at hwd
          exact Bool.false_ne_true hwd

/-- The retry loop from attempt index i makes at most max_retries minus i
attempts. -/
theorem makeRequestFrom_attemptCount (att : Nat → AttemptResult) (i : Nat) :
    (makeRequestFrom att i).1.countP isAttemptEvent ≤ max_retries - i := by
  induction i using makeRequestFrom.induct att with
  | case1 i h ha =>
      rw [makeRequestFrom_ok att i h ha]
      simp [List.countP_cons, isAttemptEvent]
      omega
  | case2 h ha =>
      rw [makeRequestFrom_exn_last att _ (by omega) (Or.inl ha) rfl]
      simp [List.countP_cons, isAttemptEvent]
      omega
  | case3 i h ha hl ih =>
      rw [makeRequestFrom_exn_cont att i h (Or.inl ha) hl]
      simp [List.countP_cons, isAttemptEvent]
      omega
  | case4 h ha =>
      rw [makeRequestFrom_exn_last att _ (by omega) (Or.inr ha) rfl]
      simp [List.countP_cons, isAttemptEvent]
      omega
  | case5 i h ha hl ih =>
      rw [makeRequestFrom_exn_cont att i h (Or.inr ha) hl]
      simp [List.countP_cons, isAttemptEvent]
      omega
  | case6 i h =>
      rw [makeRequestFrom_stop att i h]
      exact Nat.zero_le _


/-! ## Helper lemmas about link extraction -/

/-- Membership after a set.add: the old entries and the added one. -/
theorem setAdd_mem (acc : List String) (s u : String) :
    u ∈ setAdd acc s ↔ u ∈ acc ∨ u = s := by
  unfold setAdd
  split_ifs with h
  · constructor
    · exact Or.inl
    · rintro (hu | rfl)
      · exact hu
      · exact h
  · simp

/-- A set.add keeps the collection free of duplicates. -/
theorem setAdd_nodup (acc : List String) (s : String) (hn : acc.Nodup) :
    (setAdd acc s).Nodup := by
  unfold setAdd
  split_ifs with h
  · exact hn
  · simpa [List.nodup_append, hn] using h

/-- Membership after one extraction loop: the old entries, plus every
candidate some element of the document yields. -/
theorem collectLinks_mem (cand : HtmlElement → Option String) (doc : List HtmlElement)
    (acc : List String) (u : String) :
    u ∈ collectLinks cand doc acc ↔ u ∈ acc ∨ ∃ e ∈ doc, cand e = some u := by
  induction doc generalizing acc with
  | nil => simp [collectLinks]
  | cons e rest ih =>
      simp only [collectLinks]
      cases hc : cand e with
      | none =>
          rw [ih]
          simp only [List.mem_cons]
          constructor
          · rintro (hu | ⟨x, hx, hcx⟩)
            · exact Or.inl hu
            · exact Or.inr ⟨x, Or.inr hx, hcx⟩
          · rintro (hu | ⟨x, hx | hx, hcx⟩)
            · exact Or.inl hu
            · rw [hx] at hcx
              rw [hc] at hcx
              cases hcx
            · exact Or.inr ⟨x, hx, hcx⟩
      | some w =>
          rw [ih]
          simp only [setAdd_mem, List.mem_cons]
          constructor
          · rintro ((hu | rfl) | ⟨x, hx, hcx⟩)
            · exact Or.inl hu
            · exact Or.inr ⟨e, Or.inl rfl, hc⟩
            · exact Or.inr ⟨x, Or.inr hx, hcx⟩
          · rintro (hu | ⟨x, hx | hx, hcx⟩)
            · exact Or.inl (Or.inl hu)
            · rw [hx] at hcx
              rw [hc] at hcx
              cases hcx
              exact Or.inl (Or.inr rfl)
            · exact Or.inr ⟨x, hx, hcx⟩

/-- One extraction loop keeps the collection free of duplicates. -/
theorem collectLinks_nodup (cand : HtmlElement → Option String) (doc : List HtmlElement)
    (acc : List String) (hn : acc.Nodup) : (collectLinks cand doc acc).Nodup := by
  induction doc generalizing acc with
  | nil => exact hn
  | cons e rest ih =>
      simp only [collectLinks]
      cases hc : cand e with
      | none => exact ih acc hn
      | some w => exact ih _ (setAdd_nodup acc w hn)

/-- Membership after the HTMX pass: the old entries, plus every candidate
yielded by some element under some attribute of the list. -/
theorem htmxPass_mem (uj : String → String → String) (nl : String → String)
    (baseUrl pageUrl : String) (doc : List HtmlElement) (attrs : List String)
    (acc : List String) (u : String) :
    u ∈ htmxPass uj nl baseUrl pageUrl doc attrs acc ↔
      u ∈ acc ∨ ∃ a ∈ attrs, ∃ e ∈ doc, htmxCand uj nl baseUrl pageUrl a e = some u := by
  induction attrs generalizing acc with
  | nil => simp [htmxPass]
  | cons a rest ih =>
      simp only [htmxPass]
      rw [ih, collectLinks_mem]
      simp only [List.mem_cons]
      constructor
      · rintro ((hu | ⟨e, he, hce⟩) | ⟨x, hx, e, he, hce⟩)
        · exact Or.inl hu
        · exact Or.inr ⟨a, Or.inl rfl, e, he, hce⟩
        · exact Or.inr ⟨x, Or.inr hx, e, he, hce⟩
      · rintro (hu | ⟨x, hx | hx, e, he, hce⟩)
        · exact Or.inl (Or.inl hu)
        · rw [hx] at hce
          exact Or.inl (Or.inr ⟨e, he, hce⟩)
        · exact Or.inr ⟨x, hx, e, he, hce⟩

/-- The HTMX pass keeps the collection free of duplicates. -/
theorem htmxPass_nodup (uj : String → String → String) (nl : String → String)
    (baseUrl pageUrl : String) (doc : List HtmlElement) (attrs : List String)
    (acc : List String) (hn : acc.Nodup) :
    (htmxPass uj nl baseUrl pageUrl doc attrs acc).Nodup := by
  induction attrs generalizing acc with
  | nil => exact hn
  | cons a rest ih => exact ih _ (collectLinks_nodup _ doc acc hn)

/-- What the anchor loop body yields, spelled out: the element has tag a,
an href value passing the domain filter, and the candidate is the joined
URL. -/
theorem anchorCand_eq_some (uj : String → String → String) (nl : String → String)
    (baseUrl pageUrl : String) (e : HtmlElement) (u : String) :
    anchorCand uj nl baseUrl pageUrl e = some u ↔
      e.tag = "a" ∧ ∃ v, getAttr e "href" = some v ∧
        linkFilter uj nl baseUrl pageUrl v = true ∧ u = uj pageUrl v := by
  cases hg : getAttr e "href" with
  | none => simp [anchorCand, hg]
  | some v =>
      simp only [anchorCand, hg]
      split_ifs with ht hf
      · constructor
        · intro hu
          injection hu with hu
          exact ⟨ht, v, rfl, hf, hu.symm⟩
        · rintro ⟨-, w, hw, -, rfl⟩
          injection hw with hw
          rw [hw]
      · constructor
        · intro hu
          cases hu
        · rintro ⟨-, w, hw, hfw, -⟩
          injection hw with hw
          subst hw
          exact absurd hfw hf
      · constructor
        · intro hu
          cases hu
        · rintro ⟨hta, -⟩
          exact absurd hta ht

/-- What the HTMX loop body yields, spelled out: the element carries the
attribute with a nonempty value passing the domain filter, and the
candidate is the joined URL. -/
theorem htmxCand_eq_some (uj : String → String → String) (nl : String → String)
    (baseUrl pageUrl attr : String) (e : HtmlElement) (u : String) :
    htmxCand uj nl baseUrl pageUrl attr e = some u ↔
      ∃ v, getAttr e attr = some v ∧ v ≠ "" ∧
        linkFilter uj nl baseUrl pageUrl v = true ∧ u = uj pageUrl v := by
  cases hg : getAttr e attr with
  | none => simp [htmxCand, hg]
  | some v =>
      simp only [htmxCand, hg]
      split_ifs with hf
      · constructor
        · intro hu
          injection hu with hu
          exact ⟨v, rfl, hf.1, hf.2, hu.symm⟩
        · rintro ⟨w, hw, -, -, rfl⟩
          injection hw with hw
          rw [hw]
      · constructor
        · intro hu
          cases hu
        · rintro ⟨w, hw, hne, hfw, -⟩
          injection hw with hw
          subst hw
          exact absurd ⟨hne, hfw⟩ hf

/-- What the form loop body yields, spelled out: the element has tag form,
an action value passing the domain filter, and the candidate is the joined
URL. -/
theorem formCand_eq_some (uj : String → String → String) (nl : String → String)
    (baseUrl pageUrl : String) (e : HtmlElement) (u : String) :
    formCand uj nl baseUrl pageUrl e = some u ↔
      e.tag = "form" ∧ ∃ v, getAttr e "action" = some v ∧
        linkFilter uj nl baseUrl pageUrl v = true ∧ u = uj pageUrl v := by
  cases hg : getAttr e "action" with
  | none => simp [formCand, hg]
  | some v =>
      simp only [formCand, hg]
      split_ifs with ht hf
      · constructor
        · intro hu
          injection hu with hu
          exact ⟨ht, v, rfl, hf, hu.symm⟩
        · rintro ⟨-, w, hw, -, rfl⟩
          injection hw with hw
          rw [hw]
      · constructor
        · intro hu
          cases hu
        · rintro ⟨-, w, hw, hfw, -⟩
          injection hw with hw
          subst hw
          exact absurd hfw hf
      · constructor
        · intro hu
          cases hu
        · rintro ⟨hta, -⟩
          exact absurd hta ht

/-! ## Helper lemmas about investigate_404_patterns -/

/-- The three buckets of investigate_404_patterns are the three filters of
the input, in input order. -/
theorem investigate_404_filters (paths : List String) :
    (investigate_404_patterns paths).api_endpoints = paths.filter isApiPath ∧
      (investigate_404_patterns paths).ui_pages = paths.filter isUiPath ∧
      (investigate_404_patterns paths).missing_features = paths.filter isMissingPath := by
  induction paths with
  | nil => exact ⟨rfl, rfl, rfl⟩
  | cons p rest ih =>
      simp only [investigate_404_patterns, List.filter_cons]
      by_cases hapi : strStarts p "/api/"
      · have h1 : isApiPath p = true := hapi
        have h2 : isUiPath p = false := by simp [isUiPath, hapi]
        have h3 : isMissingPath p = false := by simp [isMissingPath, hapi]
        simp [hapi, h1, h2, h3, ih]
      · by_cases hui : ui_keywords.any (fun k => strContains p k)
        · have h1 : isApiPath p = false := by simpa [isApiPath] using hapi
          have h2 : isUiPath p = true := by simp [isUiPath, hapi, hui]
          have h3 : isMissingPath p = false := by simp [isMissingPath, hapi, hui]
          simp [hapi, hui, h1, h2, h3, ih]
        · have h1 : isApiPath p = false := by simpa [isApiPath] using hapi
          have h2 : isUiPath p = false := by simp [isUiPath, hapi, hui]
          have h3 : isMissingPath p = true := by simp [isMissingPath, hapi, hui]
          simp [hapi, hui, h1, h2, h3, ih]

/-! ## Claim C1 -/

/-- C1: crawl_page records every response it obtains in exactly one status
bucket determined by the status code range. -/
theorem C1_crawl_page_buckets (fetch : String → Fetch) (url : String) (st : ScanState) :
    (∀ code isHtml links, fetch url = Fetch.ok code isHtml links →
      (crawlPage fetch url st).1.status = Status.code code ∧
      (200 ≤ code ∧ code < 300 →
        (crawlPage fetch url st).2.successful_pages
            = st.successful_pages ++ [(crawlPage fetch url st).1] ∧
        (crawlPage fetch url st).2.err4xx = st.err4xx ∧
        (crawlPage fetch url st).2.err5xx = st.err5xx ∧
        (crawlPage fetch url st).2.errOther = st.errOther ∧
        (crawlPage fetch url st).2.errExceptions = st.errExceptions) ∧
      (400 ≤ code ∧ code < 500 →
        (crawlPage fetch url st).2.err4xx = st.err4xx ++ [(crawlPage fetch url st).1] ∧
        (crawlPage fetch url st).2.successful_pages = st.successful_pages ∧
        (crawlPage fetch url st).2.err5xx = st.err5xx ∧
        (crawlPage fetch url st).2.errOther = st.errOther ∧
        (crawlPage fetch url st).2.errExceptions = st.errExceptions) ∧
      (500 ≤ code ∧ code < 600 →
        (crawlPage fetch url st).2.err5xx = st.err5xx ++ [(crawlPage fetch url st).1] ∧
        (crawlPage fetch url st).2.successful_pages = st.successful_pages ∧
        (crawlPage fetch url st).2.err4xx = st.err4xx ∧
        (crawlPage fetch url st).2.errOther = st.errOther ∧
        (crawlPage fetch url st).2.errExceptions = st.errExceptions) ∧
      (¬(200 ≤ code ∧ code < 300) → ¬(400 ≤ code ∧ code < 500) → ¬(500 ≤ code ∧ code < 600) →
        (crawlPage fetch url st).2.errOther = st.errOther ++ [(crawlPage fetch url st).1] ∧
        (crawlPage fetch url st).2.successful_pages = st.successful_pages ∧
        (crawlPage fetch url st).2.err4xx = st.err4xx ∧
        (crawlPage fetch url st).2.err5xx = st.err5xx ∧
        (crawlPage fetch url st).2.errExceptions = st.errExceptions)) ∧
    (fetch url = Fetch.noResponse →
      (crawlPage fetch url st).1.status = Status.timeout ∧
      (crawlPage fetch url st).2 = st) ∧
    (fetch url = Fetch.exn →
      (crawlPage fetch url st).1.status = Status.error ∧
      (crawlPage fetch url st).2.errExceptions
          = st.errExceptions ++ [(crawlPage fetch url st).1] ∧
      (crawlPage fetch url st).2.successful_pages = st.successful_pages ∧
      (crawlPage fetch url st).2.err4xx = st.err4xx ∧
      (crawlPage fetch url st).2.err5xx = st.err5xx ∧
      (crawlPage fetch url st).2.errOther = st.errOther) := by
  refine ⟨?_, ?_, ?_⟩
  · intro code isHtml links heq
    simp only [crawlPage, heq]
    refine ⟨?_, ?_, ?_, ?_, ?_⟩
    · trivial
    · intro h2
      have c4 : ¬(400 ≤ code ∧ code < 500) := by omega
      have c5 : ¬(500 ≤ code ∧ code < 600) := by omega
      rw [if_neg c4, if_neg c5, if_pos h2]
      split_ifs <;> simp
    · intro h4
      have c2 : ¬(code = 200 ∧ isHtml) := by
        rintro ⟨rfl, -⟩
        omega
      rw [if_pos h4, if_neg c2]
      simp
    · intro h5
      have c4 : ¬(400 ≤ code ∧ code < 500) := by omega
      have c2 : ¬(code = 200 ∧ isHtml) := by
        rintro ⟨rfl, -⟩
        omega
      rw [if_neg c4, if_pos h5, if_neg c2]
      simp
    · intro h2 h4 h5
      have c2 : ¬(code = 200 ∧ isHtml) := by
        rintro ⟨rfl, -⟩
        exact h2 ⟨by omega, by omega⟩
      rw [if_neg h4, if_neg h5, if_neg h2, if_neg c2]
      simp
  · intro heq
    simp [crawlPage, heq]
  · intro heq
    simp [crawlPage, heq]

/-- Fetch oracle of the examples: every URL answers 404 without a body. -/
def exFetch : String → Fetch := fun _ => Fetch.ok 404 false []

/-- Witness for C1 at a concrete input: a 404 response on url /x lands in
the 4xx bucket, leaves the other buckets alone, and keeps its code. -/
theorem C1_witness :
    (crawlPage exFetch "/x" initialState).1.status = Status.code 404 ∧
    (crawlPage exFetch "/x" initialState).2.err4xx
        = initialState.err4xx ++ [(crawlPage exFetch "/x" initialState).1] ∧
    (crawlPage exFetch "/x" initialState).2.successful_pages
        = initialState.successful_pages := by
  have h := C1_crawl_page_buckets exFetch "/x" initialState
  obtain ⟨hok, -, -⟩ := h
  obtain ⟨hstatus, -, h4, -, -⟩ := hok 404 false [] rfl
  obtain ⟨ha, hb, -, -, -⟩ := h4 (by omega)
  exact ⟨hstatus, ha, hb⟩

/-! ## Claim C2 -/

/-- C2: the crawl loop terminates on every run (scanLoop is a total
function, defined by well-founded recursion on the pair of remaining page
budget and queue length) and stops as soon as the queue is empty or the
cap of 200 pages is reached, so the final crawled count and the number of
pages requested never exceed 200. -/
theorem C2_crawl_loop_cap (fetch : String → Fetch) (b : String) (queue : List String)
    (st : ScanState) :
    max_pages = 200 ∧
    (scanLoop fetch b queue st 0).2.1 ≤ 200 ∧
    (scanLoop fetch b queue st 0).2.2.length ≤ 200 ∧
    (∀ st2 c, scanLoop fetch b [] st2 c = (st2, c, [])) ∧
    (∀ url rest st2 c, ¬ c < max_pages → scanLoop fetch b (url :: rest) st2 c = (st2, c, [])) ∧
    (∀ authOk st3, (performAuthenticatedScan authOk fetch st3).2.2.1 ≤ 200) := by
  have hle := scanLoop_count_le fetch b queue st 0 (by omega)
  have heq := scanLoop_count_eq fetch b queue st 0
  have hmp : max_pages = 200 := rfl
  refine ⟨rfl, hle, by omega, fun st2 c => scanLoop_nil fetch b st2 c,
    fun url rest st2 c hc => scanLoop_stop fetch b url rest st2 c hc, ?_⟩
  intro authOk st3
  cases htry : tryAuthenticate authOk credentials with
  | none => simp [performAuthenticatedScan, htry]
  | some c =>
      simp only [performAuthenticatedScan, htry]
      exact scanLoop_count_le fetch base_url known_routes _ 0 (by omega)

/-- Witness for C2 at a concrete input: with the count already at the cap
the loop stops at once even though the queue is not empty. -/
theorem C2_witness :
    scanLoop exFetch base_url ["/x"] initialState 200 = (initialState, 200, []) := by
  exact (C2_crawl_loop_cap exFetch base_url [] initialState).2.2.2.2.1 "/x" [] initialState 200
    (by have hmp : max_pages = 200 := rfl; omega)

/-! ## Claim C3 -/

/-- C3: the crawl loop is FIFO and duplicate free: the request order never
holds a URL twice nor a URL already crawled, a popped URL that is already
crawled is dropped without a request, a link is enqueued exactly when it is
in neither discovered_urls nor crawled_urls, and enqueueing only appends at
the back of the queue. -/
theorem C3_fifo_dedup (fetch : String → Fetch) (b : String) :
    (∀ queue st count, (scanLoop fetch b queue st count).2.2.Nodup) ∧
    (∀ queue st count u, u ∈ (scanLoop fetch b queue st count).2.2 → u ∉ st.crawled_urls) ∧
    (∀ url rest st count, url ∈ st.crawled_urls →
      scanLoop fetch b (url :: rest) st count = scanLoop fetch b rest st count) ∧
    (∀ links queue st u, u ∈ (enqueueNew links queue st).1 ↔
      u ∈ queue ∨ (u ∈ links ∧ u ∉ st.discovered_urls ∧ u ∉ st.crawled_urls)) ∧
    (∀ links queue st, ∃ t, (enqueueNew links queue st).1 = queue ++ t) := by
  exact ⟨fun queue st count => (scanLoop_order_spec fetch b queue st count).1,
    fun queue st count u hu => (scanLoop_order_spec fetch b queue st count).2 u hu,
    fun url rest st count hc => scanLoop_cons_skip fetch b url rest st count (Or.inl hc),
    fun links queue st u => enqueueNew_mem_queue links queue st u,
    fun links queue st => enqueueNew_queue_extends links queue st⟩

/-- State of the examples with url /y already crawled. -/
def exSeenState : ScanState := { initialState with crawled_urls := {"/y"} }

/-- Witness for C3 at concrete inputs: a run over a queue holding /x twice
requests no URL twice, a popped URL that is already crawled is dropped, and
a fresh link is enqueued at the back. -/
theorem C3_witness :
    (scanLoop exFetch base_url ["/x", "/x"] initialState 0).2.2.Nodup ∧
    scanLoop exFetch base_url ["/y"] exSeenState 0 = scanLoop exFetch base_url [] exSeenState 0 ∧
    "/a" ∈ (enqueueNew ["/a"] [] initialState).1 := by
  refine ⟨(C3_fifo_dedup exFetch base_url).1 ["/x", "/x"] initialState 0,
    (C3_fifo_dedup exFetch base_url).2.2.1 "/y" [] exSeenState 0 (by decide),
    ((C3_fifo_dedup exFetch base_url).2.2.2.1 ["/a"] [] initialState "/a").mpr
      (Or.inr ⟨by decide, by decide, by decide⟩)⟩

/-! ## Claim C9 -/

/-- C9: the loop never issues a request for a filtered URL: every URL in
the request order is neither external nor matched by a skip pattern, and a
popped URL that is external or matches a skip pattern is dropped with the
loop moving on to the rest of the queue. -/
theorem C9_no_request_for_filtered (fetch : String → Fetch) (b : String) :
    (∀ queue st count u, u ∈ (scanLoop fetch b queue st count).2.2 →
      shouldSkipUrl u = false ∧ isExternalUrl b u = false) ∧
    (∀ url rest st count, shouldSkipUrl url = true →
      scanLoop fetch b (url :: rest) st count = scanLoop fetch b rest st count) ∧
    (∀ url rest st count, isExternalUrl b url = true →
      scanLoop fetch b (url :: rest) st count = scanLoop fetch b rest st count) ∧
    skip_patterns = [".pdf", ".jpg", ".png", ".gif", ".css", ".js", ".ico",
      "/logout", "/api/logout", "javascript:", "mailto:", "#", "data:"] := by
  refine ⟨?_, ?_, ?_, rfl⟩
  · intro queue st count u hu
    have h := scanLoop_order_filtered fetch b queue st count u hu
    exact ⟨h.2, h.1⟩
  · intro url rest st count hs
    exact scanLoop_cons_skip fetch b url rest st count (Or.inr (Or.inr hs))
  · intro url rest st count hx
    exact scanLoop_cons_skip fetch b url rest st count (Or.inr (Or.inl hx))

/-- Witness for C9 at concrete inputs: a URL matching the logout pattern
and an external URL are both dropped without a request. -/
theorem C9_witness :
    scanLoop exFetch base_url ["/logout"] initialState 0
        = scanLoop exFetch base_url [] initialState 0 ∧
    scanLoop exFetch base_url ["https://evil.example/x"] initialState 0
        = scanLoop exFetch base_url [] initialState 0 := by
  exact ⟨(C9_no_request_for_filtered exFetch base_url).2.1 "/logout" [] initialState 0 (by decide),
    (C9_no_request_for_filtered exFetch base_url).2.2.1 "https://evil.example/x" [] initialState 0
      (by decide)⟩

/-! ## Claim C8 -/

/-- C8: throughout the crawl loop crawled_urls stays inside
discovered_urls: the invariant is preserved by the loop whenever every
queued URL is discovered, and it holds of the full scan, which seeds
discovered_urls with the known routes before the loop starts. -/
theorem C8_crawled_subset_discovered (fetch : String → Fetch) :
    (∀ b queue st count, (∀ u ∈ queue, u ∈ st.discovered_urls) →
      st.crawled_urls ⊆ st.discovered_urls →
      (scanLoop fetch b queue st count).1.crawled_urls ⊆
        (scanLoop fetch b queue st count).1.discovered_urls) ∧
    (∀ authOk st, st.crawled_urls ⊆ st.discovered_urls →
      (performAuthenticatedScan authOk fetch st).2.1.crawled_urls ⊆
        (performAuthenticatedScan authOk fetch st).2.1.discovered_urls) := by
  refine ⟨fun b queue st count => scanLoop_subset_inv fetch b queue st count, ?_⟩
  intro authOk st hsub
  cases htry : tryAuthenticate authOk credentials with
  | none => simpa [performAuthenticatedScan, htry] using hsub
  | some c =>
      simp only [performAuthenticatedScan, htry]
      refine scanLoop_subset_inv fetch base_url known_routes _ 0 ?_ ?_
      · intro u hu
        exact Finset.mem_union_right _ (List.mem_toFinset.mpr hu)
      · intro u hu
        exact Finset.mem_union_left _ (hsub hu)

/-- Witness for C8 at a concrete input: after the full scan from a fresh
state with an oracle that always succeeds authentication, the crawled set
sits inside the discovered set. -/
theorem C8_witness :
    (performAuthenticatedScan (fun _ => true) exFetch initialState).2.1.crawled_urls ⊆
      (performAuthenticatedScan (fun _ => true) exFetch initialState).2.1.discovered_urls := by
  exact (C8_crawled_subset_discovered exFetch).2 (fun _ => true) initialState
    (by intro u hu; cases hu)

/-! ## Claim C6 -/

/-- C6: the scan authenticates before any crawling, trying the credentials
in order and stopping at the first success; when every credential fails the
scan returns False at once with the state unchanged, zero pages crawled and
an empty request order, so from a fresh state crawled_urls stays empty. -/
theorem C6_authentication_gate (authOk : Credential → Bool) (fetch : String → Fetch) :
    (∀ st, (∀ c ∈ credentials, authOk c = false) →
      performAuthenticatedScan authOk fetch st = (false, st, 0, [])) ∧
    (∀ c, tryAuthenticate authOk credentials = some c → authOk c = true ∧
      ∃ i, ∃ hi : i < credentials.length, credentials.get ⟨i, hi⟩ = c ∧
        ∀ d ∈ credentials.take i, authOk d = false) ∧
    (tryAuthenticate authOk credentials = none ↔ ∀ c ∈ credentials, authOk c = false) ∧
    ((∀ c ∈ credentials, authOk c = false) →
      (performAuthenticatedScan authOk fetch initialState).2.1.crawled_urls = ∅) := by
  have hfail : ∀ st : ScanState, (∀ c ∈ credentials, authOk c = false) →
      performAuthenticatedScan authOk fetch st = (false, st, 0, []) := by
    intro st hall
    have hnone := (tryAuthenticate_eq_none authOk credentials).mpr hall
    simp [performAuthenticatedScan, hnone]
  refine ⟨hfail, ?_, tryAuthenticate_eq_none authOk credentials, ?_⟩
  · intro c hsome
    exact tryAuthenticate_first authOk credentials c hsome
  · intro hall
    rw [hfail initialState hall]
    rfl

/-- Authentication oracle of the examples that rejects every credential. -/
def exAuthFail : Credential → Bool := fun _ => false

/-- Witness for C6 at a concrete input: with an oracle rejecting every
credential the scan returns False with nothing crawled. -/
theorem C6_witness :
    performAuthenticatedScan exAuthFail exFetch initialState = (false, initialState, 0, []) := by
  exact (C6_authentication_gate exAuthFail exFetch).1 initialState (by decide)

/-! ## Claim C7 -/

/-- C7: every HTTP attempt of one make_request invocation comes right
after a sleep of request_delay (one second), including every retry after a
timeout or request error, and there are at most max_retries (three)
attempts. -/
theorem C7_delay_before_attempts (att : Nat → AttemptResult) :
    request_delay = 1 ∧
    max_retries = 3 ∧
    wellDelayed (makeRequestTrace att).1 = true ∧
    (∀ k i, (makeRequestTrace att).1.get? k = some (ReqEvent.attempt i) →
      ∃ k2, k = k2 + 1 ∧ (makeRequestTrace att).1.get? k2 = some (ReqEvent.sleep request_delay)) ∧
    (makeRequestTrace att).1.countP isAttemptEvent ≤ max_retries := by
  refine ⟨rfl, rfl, makeRequestFrom_wellDelayed att 0, ?_, ?_⟩
  · intro k i hk
    exact wellDelayed_attempt_preceded _ (makeRequestFrom_wellDelayed att 0) k i hk
  · simpa using makeRequestFrom_attemptCount att 0

/-- Attempt oracle of the examples: the first attempt times out, the second
succeeds. -/
def exAtt : Nat → AttemptResult := fun i => if i = 0 then AttemptResult.timeoutExn else AttemptResult.ok

/-- Witness for C7 at a concrete input: with a timeout then a success, the
attempt at trace position 3 is preceded at position 2 by the one second
sleep. -/
theorem C7_witness :
    ∃ k2, 3 = k2 + 1 ∧
      (makeRequestTrace exAtt).1.get? k2 = some (ReqEvent.sleep request_delay) := by
  refine (C7_delay_before_attempts exAtt).2.2.2.1 3 1 ?_
  have h01 : makeRequestFrom exAtt 0 =
      (ReqEvent.sleep request_delay :: ReqEvent.attempt 0 :: (makeRequestFrom exAtt 1).1,
        (makeRequestFrom exAtt 1).2) :=
    makeRequestFrom_exn_cont exAtt 0 (by decide) (Or.inl rfl) (by decide)
  have h1 : makeRequestFrom exAtt 1 = ([ReqEvent.sleep request_delay, ReqEvent.attempt 1], ReqOutcome.success) :=
    makeRequestFrom_ok exAtt 1 (by decide) rfl
  show (makeRequestFrom exAtt 0).1.get? 3 = some (ReqEvent.attempt 1)
  rw [h01, h1]
  rfl

/-! ## Claim C10 -/

/-- C10: investigate_404_patterns partitions its input: the api_endpoints
bucket is the paths starting with /api/, the ui_pages bucket the remaining
paths containing a dashboard, phase or dynamic keyword, the
missing_features bucket the rest; each bucket keeps the input order and
every input path lands in exactly one bucket. -/
theorem C10_404_partition (paths : List String) :
    (investigate_404_patterns paths).api_endpoints = paths.filter isApiPath ∧
    (investigate_404_patterns paths).ui_pages = paths.filter isUiPath ∧
    (investigate_404_patterns paths).missing_features = paths.filter isMissingPath ∧
    (∀ p ∈ paths,
      (p ∈ (investigate_404_patterns paths).api_endpoints ∧
        p ∉ (investigate_404_patterns paths).ui_pages ∧
        p ∉ (investigate_404_patterns paths).missing_features) ∨
      (p ∉ (investigate_404_patterns paths).api_endpoints ∧
        p ∈ (investigate_404_patterns paths).ui_pages ∧
        p ∉ (investigate_404_patterns paths).missing_features) ∨
      (p ∉ (investigate_404_patterns paths).api_endpoints ∧
        p ∉ (investigate_404_patterns paths).ui_pages ∧
        p ∈ (investigate_404_patterns paths).missing_features)) := by
  obtain ⟨ha, hu, hm⟩ := investigate_404_filters paths
  refine ⟨ha, hu, hm, ?_⟩
  intro p hp
  rw [ha, hu, hm]
  by_cases hapi : strStarts p "/api/"
  · refine Or.inl ⟨List.mem_filter.mpr ⟨hp, hapi⟩, ?_, ?_⟩
    · intro hmem
      have := (List.mem_filter.mp hmem).2
      simp [isUiPath, hapi] at this
    · intro hmem
      have := (List.mem_filter.mp hmem).2
      simp [isMissingPath, hapi] at this
  · by_cases hui : ui_keywords.any (fun k => strContains p k)
    · refine Or.inr (Or.inl ⟨?_, List.mem_filter.mpr ⟨hp, ?_⟩, ?_⟩)
      · intro hmem
        have := (List.mem_filter.mp hmem).2
        simp [isApiPath, hapi] at this
      · simp [isUiPath, hapi, hui]
      · intro hmem
        have := (List.mem_filter.mp hmem).2
        simp [isMissingPath, hapi, hui] at this
    · refine Or.inr (Or.inr ⟨?_, ?_, List.mem_filter.mpr ⟨hp, ?_⟩⟩)
      · intro hmem
        have := (List.mem_filter.mp hmem).2
        simp [isApiPath, hapi] at this
      · intro hmem
        have := (List.mem_filter.mp hmem).2
        simp [isUiPath, hapi, hui] at this
      · simp [isMissingPath, hapi, hui]

/-- Witness for C10 at a concrete input: the error paths investigated by
run_investigation split into the api bucket, the ui bucket and the rest. -/
theorem C10_witness :
    (investigate_404_patterns ["/api/compliance", "/dynamic-risk-analysis", "/foo"]).api_endpoints
        = ["/api/compliance"] ∧
    (investigate_404_patterns ["/api/compliance", "/dynamic-risk-analysis", "/foo"]).ui_pages
        = ["/dynamic-risk-analysis"] ∧
    (investigate_404_patterns ["/api/compliance", "/dynamic-risk-analysis", "/foo"]).missing_features
        = ["/foo"] := by
  obtain ⟨ha, hu, hm, -⟩ := C10_404_partition ["/api/compliance", "/dynamic-risk-analysis", "/foo"]
  rw [ha, hu, hm]
  exact ⟨by decide, by decide, by decide⟩

/-! ## Claim C4

The claim as frozen says the report holds every entry of every status
bucket including all successful pages; the source truncates
successful_pages to its first ten entries (line 418), so the claim fails
on a state with eleven successful pages and is amended to: all error
buckets in full, but only the first ten successful pages. -/

/-- State refuting C4 as stated: eleven successful pages. -/
def cState11 : ScanState :=
  { initialState with
    successful_pages := List.replicate 11 ⟨"/u", Status.code 200, []⟩ }

/-- Counterexample to C4 as stated: on a state with eleven successful
pages the serialized successful_pages entry is not the full list, it keeps
only ten entries. -/
theorem C4_counterexample :
    (generate_report cState11).reported_successful_pages ≠ cState11.successful_pages ∧
    (generate_report cState11).reported_successful_pages.length = 10 ∧
    cState11.successful_pages.length = 11 := by
  refine ⟨by decide, by decide, by decide⟩

/-- C4 amended: generate_report serializes the summary counts, the full
error buckets and all discovered URLs, but only the first ten successful
pages; the CSV gets exactly one row per recorded error entry, carrying the
URL, status code and bucket name of that entry. -/
theorem C4_report_contents (st : ScanState) :
    (generate_report st).detailed_4xx = st.err4xx ∧
    (generate_report st).detailed_5xx = st.err5xx ∧
    (generate_report st).detailed_other = st.errOther ∧
    (generate_report st).detailed_exceptions = st.errExceptions ∧
    (generate_report st).reported_successful_pages = st.successful_pages.take 10 ∧
    (generate_report st).successful_count = st.successful_pages.length ∧
    (generate_report st).errors_4xx = st.err4xx.length ∧
    (generate_report st).errors_5xx = st.err5xx.length ∧
    (generate_report st).errors_other = st.errOther.length ∧
    (generate_report st).exception_count = st.errExceptions.length ∧
    (generate_report st).error_count
        = st.err4xx.length + st.err5xx.length + st.errOther.length + st.errExceptions.length ∧
    (generate_report st).pages_crawled = st.crawled_urls.card ∧
    (generate_report st).total_discovered = st.discovered_urls.card ∧
    (generate_report st).all_discovered_urls = st.discovered_urls ∧
    (csvRows st).length = (generate_report st).error_count ∧
    (∀ r ∈ st.err4xx, (⟨r.url, r.status, "4xx"⟩ : CsvRow) ∈ csvRows st) ∧
    (∀ r ∈ st.err5xx, (⟨r.url, r.status, "5xx"⟩ : CsvRow) ∈ csvRows st) ∧
    (∀ r ∈ st.errOther, (⟨r.url, r.status, "other"⟩ : CsvRow) ∈ csvRows st) ∧
    (∀ r ∈ st.errExceptions, (⟨r.url, r.status, "exceptions"⟩ : CsvRow) ∈ csvRows st) := by
  refine ⟨rfl, rfl, rfl, rfl, rfl, rfl, rfl, rfl, rfl, rfl, rfl, rfl, rfl, rfl, ?_, ?_, ?_, ?_, ?_⟩
  · simp only [csvRows, generate_report, List.length_append, List.length_map]
  · intro r hr
    simp only [csvRows, List.mem_append]
    exact Or.inl (Or.inl (Or.inl (List.mem_map_of_mem _ hr)))
  · intro r hr
    simp only [csvRows, List.mem_append]
    exact Or.inl (Or.inl (Or.inr (List.mem_map_of_mem _ hr)))
  · intro r hr
    simp only [csvRows, List.mem_append]
    exact Or.inl (Or.inr (List.mem_map_of_mem _ hr))
  · intro r hr
    simp only [csvRows, List.mem_append]
    exact Or.inr (List.mem_map_of_mem _ hr)

/-- Witness for C4 at a concrete input: on a state with one 4xx entry and
one exception entry the CSV has exactly two rows, one per entry. -/
theorem C4_witness :
    (csvRows { initialState with
        err4xx := [⟨"/a", Status.code 404, []⟩],
        errExceptions := [⟨"/b", Status.error, []⟩] }).length = 2 := by
  have h := C4_report_contents { initialState with
        err4xx := [⟨"/a", Status.code 404, []⟩],
        errExceptions := [⟨"/b", Status.error, []⟩] }
  rw [h.2.2.2.2.2.2.2.2.2.2.2.2.2.2.1]
  decide

/-! ## Claim C5

The claim as frozen characterizes the extracted set as all anchor href,
HTMX attribute and form action values resolved and kept under the domain
filter. The source additionally drops an HTMX attribute whose value is the
empty string (the truthiness test on line 253), while an empty href or
action is kept, so the claim is amended to require a nonempty HTMX
attribute value. The urljoin and netloc functions below instantiate the
abstract parameters consistently with urllib on the inputs used. -/

/-- Concrete urljoin for the C5 counterexample: urljoin(u, v) is u itself
when v is empty, as urllib computes on these inputs. -/
def cUj : String → String → String := fun u v => if v = "" then u else v

/-- Concrete netloc projection for the C5 counterexample: every URL in
play has host h. -/
def cNl : String → String := fun _ => "h"

/-- Document for the C5 counterexample: one element carrying an empty
hx-get attribute. -/
def cDoc : List HtmlElement := [⟨"div", [("hx-get", "")]⟩]

/-- Counterexample to C5 as stated: the document holds an element whose
hx-get value resolves under urljoin to the page URL, whose host passes the
domain filter, yet extract_links_from_page returns nothing because the
value is empty. -/
theorem C5_counterexample :
    "hx-get" ∈ htmx_attrs ∧
    getAttr ⟨"div", [("hx-get", "")]⟩ "hx-get" = some "" ∧
    linkFilter cUj cNl "https://h" "https://h/a" "" = true ∧
    cUj "https://h/a" "" = "https://h/a" ∧
    extract_links_from_page cUj cNl "https://h" "https://h/a" cDoc = [] := by
  exact ⟨by decide, by decide, by decide, by decide, by decide⟩

/-- C5 amended: extract_links_from_page returns a duplicate free list
whose members are exactly the URLs resolved from anchor href values, from
nonempty HTMX attribute values of hx-get, hx-post, hx-put, hx-delete and
hx-patch, and from form action values, kept when the resolved host equals
the base host or the raw value starts with a slash. -/
theorem C5_extract_links (uj : String → String → String) (nl : String → String)
    (baseUrl pageUrl : String) (doc : List HtmlElement) :
    (extract_links_from_page uj nl baseUrl pageUrl doc).Nodup ∧
    ∀ u, u ∈ extract_links_from_page uj nl baseUrl pageUrl doc ↔
      ((∃ e ∈ doc, e.tag = "a" ∧ ∃ v, getAttr e "href" = some v ∧
          linkFilter uj nl baseUrl pageUrl v = true ∧ u = uj pageUrl v) ∨
       (∃ a ∈ htmx_attrs, ∃ e ∈ doc, ∃ v, getAttr e a = some v ∧ v ≠ "" ∧
          linkFilter uj nl baseUrl pageUrl v = true ∧ u = uj pageUrl v) ∨
       (∃ e ∈ doc, e.tag = "form" ∧ ∃ v, getAttr e "action" = some v ∧
          linkFilter uj nl baseUrl pageUrl v = true ∧ u = uj pageUrl v)) := by
  constructor
  · exact collectLinks_nodup _ doc _
      (htmxPass_nodup uj nl baseUrl pageUrl doc htmx_attrs _
        (collectLinks_nodup _ doc [] List.nodup_nil))
  · intro u
    unfold extract_links_from_page
    rw [collectLinks_mem, htmxPass_mem, collectLinks_mem]
    simp only [List.not_mem_nil, false_or, anchorCand_eq_some, htmxCand_eq_some,
      formCand_eq_some, or_assoc]

/-- Witness for C5 at a concrete input: a document with one anchor, one
HTMX element and one form yields exactly the three resolved URLs. -/
theorem C5_witness :
    "/b" ∈ extract_links_from_page cUj cNl "https://h" "https://h/a"
        [⟨"a", [("href", "/b")]⟩, ⟨"div", [("hx-post", "/d")]⟩, ⟨"form", [("action", "/c")]⟩] ∧
    (extract_links_from_page cUj cNl "https://h" "https://h/a"
        [⟨"a", [("href", "/b")]⟩, ⟨"div", [("hx-post", "/d")]⟩, ⟨"form", [("action", "/c")]⟩]).Nodup := by
  constructor
  · refine ((C5_extract_links cUj cNl "https://h" "https://h/a" _).2 "/b").mpr ?_
    exact Or.inl ⟨⟨"a", [("href", "/b")]⟩, by decide, rfl, "/b", rfl, by decide, by decide⟩
  · exact (C5_extract_links cUj cNl "https://h" "https://h/a" _).1

end ARIA5
